import Mathlib

/-!
Verification development for the `dev-cleanup` scan core
(`src/dev_cleanup/scanner.py`, `src/dev_cleanup/models.py`,
`src/dev_cleanup/utils/git.py`, `src/dev_cleanup/utils/filesystem.py`).

The Python code is shallowly embedded: the filesystem is a finite tree of
named entries, external processes (`git log`, `du`) are modelled by their
observable outcomes, `datetime` values are civil dates with microsecond-of-day
resolution, and Python exceptions are an `Except` error channel.
-/

namespace DevCleanup

/-! ## Python `datetime` model

A `datetime.datetime` value: calendar date plus microseconds since midnight
(`hour/minute/second/microsecond` collapsed into one field, which preserves
the lexicographic comparison order of `datetime`).  The local timezone used by
`datetime.fromtimestamp` and `datetime.now` is modelled as UTC. -/
structure PyDateTime where
  year : Int
  month : Int
  day : Int
  usod : Int
deriving DecidableEq, Repr

/-- Python `datetime < datetime`: lexicographic on (year, month, day, time). -/
def pyLt (a b : PyDateTime) : Bool :=
  if a.year ≠ b.year then decide (a.year < b.year)
  else if a.month ≠ b.month then decide (a.month < b.month)
  else if a.day ≠ b.day then decide (a.day < b.day)
  else decide (a.usod < b.usod)

/-- Python `datetime <= datetime` (total order, so `a <= b ↔ ¬ b < a`). -/
def pyLe (a b : PyDateTime) : Bool :=
  !(pyLt b a)

def isLeapYear (y : Int) : Bool :=
  y % 4 = 0 && (y % 100 ≠ 0 || y % 400 = 0)

def daysInMonth (y m : Int) : Int :=
  if m = 2 then (if isLeapYear y then 29 else 28)
  else if m = 4 ∨ m = 6 ∨ m = 9 ∨ m = 11 then 30
  else 31

/-- `datetime.fromtimestamp(ts)` for an integral epoch timestamp: standard
days-to-civil-date conversion (proleptic Gregorian calendar), with the
seconds-of-day scaled to microseconds. -/
def fromtimestamp (t : Int) : PyDateTime :=
  let days := Int.fdiv t 86400
  let sod := t - days * 86400
  let z := days + 719468
  let era := Int.fdiv z 146097
  let doe := z - era * 146097
  let yoe := Int.fdiv (doe - Int.fdiv doe 1460 + Int.fdiv doe 36524 - Int.fdiv doe 146096) 365
  let y0 := yoe + era * 400
  let doy := doe - (365 * yoe + Int.fdiv yoe 4 - Int.fdiv yoe 100)
  let mp := Int.fdiv (5 * doy + 2) 153
  let d := doy - Int.fdiv (153 * mp + 2) 5 + 1
  let m := mp + (if mp < 10 then 3 else -9)
  { year := y0 + (if m ≤ 2 then 1 else 0), month := m, day := d, usod := sod * 1000000 }

/-- `dt - relativedelta(months=m)`: dateutil normalises the month count
into the year (floored division) and clamps the day to the length of the
target month; the time of day is unchanged. -/
def subMonths (d : PyDateTime) (m : Nat) : PyDateTime :=
  let t := d.year * 12 + (d.month - 1) - (m : Int)
  let y := Int.fdiv t 12
  let mo := t - y * 12 + 1
  { year := y, month := mo, day := min d.day (daysInMonth y mo), usod := d.usod }

/-! ## Filesystem model

A directory tree.  Directories carry a `readable` flag: `iterdir()` on an
unreadable directory raises `PermissionError`/`OSError`; metadata tests
(`is_dir`, `is_file` on a named child) are modelled as pure lookups.
Paths are lists of path segments. -/

mutual
inductive Entry where
  | file (name : String) : Entry
  | dir (name : String) (readable : Bool) (children : EntryList) : Entry
deriving DecidableEq, Repr
inductive EntryList where
  | nil : EntryList
  | cons (e : Entry) (es : EntryList) : EntryList
deriving DecidableEq, Repr
end

def entryName : Entry → String
  | .file n => n
  | .dir n _ _ => n

def EntryList.toList : EntryList → List Entry
  | .nil => []
  | .cons e es => e :: es.toList

def names : EntryList → List String
  | .nil => []
  | .cons e es => entryName e :: names es

/-- `name.startswith(".")`: the hidden-entry test used by the traversal. -/
def startsWithDot (s : String) : Bool :=
  match s.data with
  | [] => false
  | c :: _ => c = '.'

/-- Whether this child entry is the `.git` VCS marker (directory or file). -/
def isGitMarkerEntry (e : Entry) : Bool :=
  entryName e = ".git"

def hasGitMarker : EntryList → Bool
  | .nil => false
  | .cons e es => isGitMarkerEntry e || hasGitMarker es

/-- `is_git_repo(path)` (git.py:8-11): `(path / ".git").is_dir() or
(path / ".git").is_file()`, i.e. the directory has a child named `.git`. -/
def is_git_repo : Entry → Bool
  | .file _ => false
  | .dir _ _ cs => hasGitMarker cs

mutual
/-- `scan_directory(path)` from `find_git_repos` (git.py:99-119): if the
directory is itself a git repo, record it and do not recurse; otherwise
iterate children (failing with no results if the directory is unreadable).
`pre` is the path of the directory relative to the scan root. -/
def scanDir (pre : List String) : Entry → List (List String)
  | .file _ => []
  | .dir _ readable cs =>
    if hasGitMarker cs then [pre]
    else if readable then scanKids pre cs
    else []
/-- The `for item in path.iterdir()` loop body of `scan_directory`: files are
skipped; a hidden directory is tested with `is_git_repo` but never descended
into; other directories recurse. -/
def scanKids (pre : List String) : EntryList → List (List String)
  | .nil => []
  | .cons (.file _) es => scanKids pre es
  | .cons (.dir n r cs) es =>
    (if startsWithDot n then (if is_git_repo (.dir n r cs) then [pre ++ [n]] else [])
     else scanDir (pre ++ [n]) (.dir n r cs)) ++ scanKids pre es
end

/-- `find_git_repos(root)` (git.py:82-122).  A root that is not a directory
yields no repositories; results are paths relative to `root`. -/
def find_git_repos : Entry → List (List String)
  | .file _ => []
  | .dir n r cs => scanDir [] (.dir n r cs)

/-- No two sibling entries share a name (true of every real directory). -/
def nodupNames : List String → Bool
  | [] => true
  | n :: ns => !(ns.contains n) && nodupNames ns

mutual
/-- Well-formedness of a filesystem tree: sibling names are pairwise
distinct at every level, as in a real filesystem. -/
def wfEntry : Entry → Bool
  | .file _ => true
  | .dir _ _ cs => nodupNames (names cs) && wfList cs
def wfList : EntryList → Bool
  | .nil => true
  | .cons e es => wfEntry e && wfList es
end

/-! ### Invariants of the repository locator -/

mutual
theorem scanDir_pre : ∀ (e : Entry) (pre p : List String), p ∈ scanDir pre e → pre <+: p
  | .file _, pre, p, h => by simp [scanDir] at h
  | .dir nm r cs, pre, p, h => by
    unfold scanDir at h
    split at h
    · simp at h; subst h; exact List.prefix_refl _
    · split at h
      · obtain ⟨n, _, hx⟩ := scanKids_pre cs pre p h
        exact ((pre.prefix_append [n]).trans hx)
      · simp at h
theorem scanKids_pre : ∀ (es : EntryList) (pre p : List String),
    p ∈ scanKids pre es → ∃ n, n ∈ names es ∧ (pre ++ [n]) <+: p
  | .nil, pre, p, h => by simp [scanKids] at h
  | .cons (.file nm) es, pre, p, h => by
    obtain ⟨n, hn, hx⟩ := scanKids_pre es pre p h
    exact ⟨n, by simp [names, hn], hx⟩
  | .cons (.dir nm r cs) es, pre, p, h => by
    unfold scanKids at h
    rw [List.mem_append] at h
    rcases h with h | h
    · refine ⟨nm, by simp [names, entryName], ?_⟩
      split at h
      · split at h <;> simp at h
        subst h; exact List.prefix_refl _
      · exact scanDir_pre _ _ _ h
    · obtain ⟨n, hn, hx⟩ := scanKids_pre es pre p h
      exact ⟨n, by simp [names, hn], hx⟩
end

theorem prefix_eq_of_prefix_prefix {α : Type} {l₁ l₂ l₃ : List α}
    (h1 : l₁ <+: l₃) (h2 : l₂ <+: l₃) (hl : l₁.length = l₂.length) : l₁ = l₂ :=
  (List.prefix_of_prefix_length_le h1 h2 (le_of_eq hl)).eq_of_length hl

theorem append_singleton_inj {α : Type} {pre : List α} {n m : α} {p q : List α}
    (hn : (pre ++ [n]) <+: p) (hm : (pre ++ [m]) <+: q) (hpq : p <+: q) : n = m := by
  have h1 : (pre ++ [n]) <+: q := hn.trans hpq
  have := prefix_eq_of_prefix_prefix h1 hm (by simp)
  simpa using this

mutual
theorem scanDir_nest : ∀ (e : Entry) (pre p q : List String), wfEntry e = true →
    p ∈ scanDir pre e → q ∈ scanDir pre e → p <+: q → p = q
  | .file _, pre, p, q, hw, hp, hq, hpq => by simp [scanDir] at hp
  | .dir nm r cs, pre, p, q, hw, hp, hq, hpq => by
    rw [scanDir] at hp hq
    rw [wfEntry] at hw
    simp only [Bool.and_eq_true] at hw
    by_cases hg : hasGitMarker cs = true
    · rw [if_pos hg] at hp hq; simp at hp hq; rw [hp, hq]
    · rw [if_neg hg] at hp hq
      by_cases hr : r = true
      · rw [if_pos hr] at hp hq
        exact scanKids_nest cs pre p q hw.2 hw.1 hp hq hpq
      · rw [if_neg hr] at hp; simp at hp
theorem scanKids_nest : ∀ (es : EntryList) (pre p q : List String), wfList es = true →
    nodupNames (names es) = true →
    p ∈ scanKids pre es → q ∈ scanKids pre es → p <+: q → p = q
  | .nil, pre, p, q, hw, hnd, hp, hq, hpq => by simp [scanKids] at hp
  | .cons (.file nm) es, pre, p, q, hw, hnd, hp, hq, hpq => by
    rw [scanKids] at hp hq
    rw [wfList] at hw
    simp only [names, entryName, nodupNames, Bool.and_eq_true] at hw hnd
    exact scanKids_nest es pre p q hw.2 hnd.2 hp hq hpq
  | .cons (.dir nm r cs) es, pre, p, q, hw, hnd, hp, hq, hpq => by
    rw [scanKids] at hp hq
    rw [wfList] at hw
    simp only [names, entryName, nodupNames, Bool.and_eq_true, Bool.not_eq_true'] at hw hnd
    have hnm : nm ∉ names es := by simpa using hnd.1
    have hbranch : ∀ x, x ∈ (if startsWithDot nm then
        (if is_git_repo (.dir nm r cs) then [pre ++ [nm]] else [])
        else scanDir (pre ++ [nm]) (.dir nm r cs)) → (pre ++ [nm]) <+: x := by
      intro x hx
      by_cases hdot : startsWithDot nm = true
      · rw [if_pos hdot] at hx
        by_cases hgit : is_git_repo (.dir nm r cs) = true
        · rw [if_pos hgit] at hx; simp at hx; subst hx; exact List.prefix_refl _
        · rw [if_neg hgit] at hx; simp at hx
      · rw [if_neg hdot] at hx
        exact scanDir_pre _ _ _ hx
    rw [List.mem_append] at hp hq
    rcases hp with hp | hp <;> rcases hq with hq | hq
    · by_cases hdot : startsWithDot nm = true
      · rw [if_pos hdot] at hp hq
        by_cases hgit : is_git_repo (.dir nm r cs) = true
        · rw [if_pos hgit] at hp hq; simp at hp hq; rw [hp, hq]
        · rw [if_neg hgit] at hp; simp at hp
      · rw [if_neg hdot] at hp hq
        exact scanDir_nest _ _ p q hw.1 hp hq hpq
    · obtain ⟨m, hm, hmx⟩ := scanKids_pre es pre q hq
      have heq : nm = m := append_singleton_inj (hbranch p hp) hmx hpq
      exact absurd (heq ▸ hm) hnm
    · obtain ⟨m, hm, hmx⟩ := scanKids_pre es pre p hp
      have heq : m = nm := append_singleton_inj hmx (hbranch q hq) hpq
      exact absurd (heq ▸ hm) hnm
    · exact scanKids_nest es pre p q hw.2 hnd.2 hp hq hpq
end

mutual
theorem scanDir_dropLast : ∀ (e : Entry) (pre p : List String),
    (∀ s ∈ pre, startsWithDot s = false) → p ∈ scanDir pre e →
    ∀ s ∈ p.dropLast, startsWithDot s = false
  | .file _, pre, p, hpre, hp => by simp [scanDir] at hp
  | .dir nm r cs, pre, p, hpre, hp => by
    rw [scanDir] at hp
    by_cases hg : hasGitMarker cs = true
    · rw [if_pos hg] at hp; simp at hp; subst hp
      exact fun s hs => hpre s (List.mem_of_mem_dropLast hs)
    · rw [if_neg hg] at hp
      by_cases hr : r = true
      · rw [if_pos hr] at hp
        exact scanKids_dropLast cs pre p hpre hp
      · rw [if_neg hr] at hp; simp at hp
theorem scanKids_dropLast : ∀ (es : EntryList) (pre p : List String),
    (∀ s ∈ pre, startsWithDot s = false) → p ∈ scanKids pre es →
    ∀ s ∈ p.dropLast, startsWithDot s = false
  | .nil, pre, p, hpre, hp => by simp [scanKids] at hp
  | .cons (.file nm) es, pre, p, hpre, hp => by
    rw [scanKids] at hp
    exact scanKids_dropLast es pre p hpre hp
  | .cons (.dir nm r cs) es, pre, p, hpre, hp => by
    rw [scanKids, List.mem_append] at hp
    rcases hp with hp | hp
    · by_cases hdot : startsWithDot nm = true
      · rw [if_pos hdot] at hp
        by_cases hgit : is_git_repo (.dir nm r cs) = true
        · rw [if_pos hgit] at hp; simp at hp; subst hp
          rw [List.dropLast_concat]
          exact hpre
        · rw [if_neg hgit] at hp; simp at hp
      · rw [if_neg hdot] at hp
        refine scanDir_dropLast _ _ p ?_ hp
        intro s hs
        rcases List.mem_append.mp hs with hs | hs
        · exact hpre s hs
        · simp at hs; subst hs
          exact Bool.not_eq_true _ ▸ hdot
    · exact scanKids_dropLast es pre p hpre hp
end

/-- C4: for every well-formed directory tree (distinct sibling names, as in a
real filesystem), `find_git_repos` never returns two paths where one is a
strict ancestor of the other: any returned path that is a prefix of another
returned path is equal to it.  Once a directory is identified as a VCS root
it is recorded and traversal never descends into it. -/
theorem find_git_repos_no_nesting (root : Entry) (hw : wfEntry root = true)
    (p q : List String) (hp : p ∈ find_git_repos root)
    (hq : q ∈ find_git_repos root) (hpq : p <+: q) : p = q := by
  match root with
  | .file _ => simp [find_git_repos] at hp
  | .dir nm r cs => exact scanDir_nest (.dir nm r cs) [] p q hw hp hq hpq

/-- A sample tree for locator witnesses: two sibling repositories under the
root, one marked by a `.git` directory and one by a `.git` file, the second
inside a non-hidden intermediate directory. -/
def locatorTree : Entry :=
  .dir "work" true
    (.cons (.dir "a" true (.cons (.dir ".git" true .nil) .nil))
      (.cons (.dir "sub" true (.cons (.dir "b" true (.cons (.file ".git") .nil)) .nil))
        .nil))

/-- Witness for C4 at a concrete tree: `find_git_repos locatorTree` is
`[["a"], ["sub", "b"]]` and the theorem applies to its members. -/
theorem find_git_repos_no_nesting_witness :
    wfEntry locatorTree = true ∧ (["a"] : List String) ∈ find_git_repos locatorTree ∧
      (["a"] : List String) = ["a"] :=
  ⟨by decide, by decide,
    find_git_repos_no_nesting locatorTree (by decide) ["a"] ["a"] (by decide) (by decide)
      (List.prefix_refl _)⟩

/-- C5: `find_git_repos` never returns a path strictly beneath a hidden
directory unless that hidden directory is itself the returned path: every
strictly-shorter ancestor prefix `h ++ [n]` of a returned path names a
non-hidden directory `n`.  (A hidden child is tested with `is_git_repo` but
never descended into.) -/
theorem find_git_repos_not_beneath_hidden (root : Entry) (p : List String)
    (hp : p ∈ find_git_repos root) (h : List String) (n : String)
    (hpre : (h ++ [n]) <+: p) (hne : h ++ [n] ≠ p) : startsWithDot n = false := by
  have hall : ∀ s ∈ p.dropLast, startsWithDot s = false := by
    match root with
    | .file _ => simp [find_git_repos] at hp
    | .dir nm r cs =>
      exact scanDir_dropLast (.dir nm r cs) [] p (by simp) hp
  obtain ⟨t, ht⟩ := hpre
  have htne : t ≠ [] := by
    intro h0
    rw [h0, List.append_nil] at ht
    exact hne ht
  refine hall n ?_
  rw [← ht, List.dropLast_append_of_ne_nil _ htne]
  simp

/-- Witness for C5 at a concrete tree: the returned path `["sub", "b"]` has
the strict ancestor `[] ++ ["sub"]`, and `"sub"` is not hidden. -/
theorem find_git_repos_not_beneath_hidden_witness :
    (["sub", "b"] : List String) ∈ find_git_repos locatorTree ∧
      startsWithDot "sub" = false :=
  ⟨by decide,
    find_git_repos_not_beneath_hidden locatorTree ["sub", "b"] (by decide) [] "sub"
      ⟨["b"], by decide⟩ (by decide)⟩

/-! ## Python exceptions

The exceptions that can escape the embedded functions.  `osError` stands for
the `OSError` subclasses other than `FileNotFoundError` (for example
`NotADirectoryError` raised by `iterdir()` on a file). -/
inductive PyExc where
  | typeError
  | fileNotFound
  | indexError
  | osError
deriving DecidableEq, Repr

/-! ## Artifact locator (`find_cleanable_directories`, filesystem.py:30-64) -/

/-- `(parent / name).is_dir()`: the entry list has a directory child named
`name`. -/
def hasDirChild : EntryList → String → Bool
  | .nil, _ => false
  | .cons (.dir m _ _) es, n => m == n || hasDirChild es n
  | .cons (.file _) es, n => hasDirChild es n

/-- The root-level pass of `find_cleanable_directories`: for each recognized
name, `project_path / name` if it is a directory. -/
def rootMatches (cs : EntryList) (cl : List String) : List (List String × String) :=
  cl.filterMap fun name => if hasDirChild cs name then some ([name], name) else none

/-- The one-level-deep pass of `find_cleanable_directories`: for each
immediate non-hidden subdirectory `subdir`, for each recognized name,
`subdir / name` if it is a directory.  Files and hidden subdirectories are
skipped. -/
def deepMatches (cl : List String) : EntryList → List (List String × String)
  | .nil => []
  | .cons (.file _) es => deepMatches cl es
  | .cons (.dir n _ cs') es =>
    (if startsWithDot n then [] else
      cl.filterMap fun name => if hasDirChild cs' name then some ([n, name], name) else none)
      ++ deepMatches cl es

/-- `find_cleanable_directories(project_path, cleanable_dirs)`
(filesystem.py:30-64).  Paths returned are relative to the project root.
On a non-directory, the root-level checks find nothing and `iterdir()`
raises `NotADirectoryError`, which the code does not catch (only
`PermissionError` is caught, modelled by the `readable` flag: an unreadable
project directory yields only the root-level matches). -/
def find_cleanable_directories (e : Entry) (cl : List String) :
    Except PyExc (List (List String × String)) :=
  match e with
  | .file _ => .error .osError
  | .dir _ rd cs => .ok (rootMatches cs cl ++ (if rd then deepMatches cl cs else []))

/-- Membership in the (successful) result of `find_cleanable_directories`. -/
def fcdMem (e : Entry) (cl : List String) (p : List String) (t : String) : Prop :=
  ∃ l, find_cleanable_directories e cl = .ok l ∧ (p, t) ∈ l

theorem mem_rootMatches {cs : EntryList} {cl : List String} {p : List String} {t : String} :
    (p, t) ∈ rootMatches cs cl ↔ t ∈ cl ∧ hasDirChild cs t = true ∧ p = [t] := by
  simp only [rootMatches, List.mem_filterMap]
  constructor
  · rintro ⟨a, ha, hsome⟩
    by_cases h : hasDirChild cs a = true
    · rw [if_pos h] at hsome
      obtain ⟨h1, h2⟩ := Prod.mk.injEq .. ▸ Option.some.inj hsome
      subst h2; exact ⟨ha, h, h1.symm⟩
    · rw [if_neg h] at hsome; cases hsome
  · rintro ⟨h1, h2, h3⟩
    exact ⟨t, h1, by subst h3; rw [if_pos h2]⟩

theorem mem_deepMatches {cl : List String} {p : List String} {t : String} :
    ∀ (cs : EntryList), (p, t) ∈ deepMatches cl cs ↔
      ∃ n rd' cs', Entry.dir n rd' cs' ∈ EntryList.toList cs ∧
        startsWithDot n = false ∧ t ∈ cl ∧ hasDirChild cs' t = true ∧ p = [n, t]
  | .nil => by simp [deepMatches, EntryList.toList]
  | .cons (.file nm) es => by
    rw [deepMatches, mem_deepMatches es]
    simp [EntryList.toList]
  | .cons (.dir nm rd cs') es => by
    rw [deepMatches, List.mem_append, mem_deepMatches es]
    constructor
    · rintro (h | h)
      · by_cases hdot : startsWithDot nm = true
        · rw [if_pos hdot] at h; cases h
        · rw [if_neg hdot] at h
          obtain ⟨a, ha, hsome⟩ := List.mem_filterMap.mp h
          by_cases hc : hasDirChild cs' a = true
          · rw [if_pos hc] at hsome
            obtain ⟨h1, h2⟩ := Prod.mk.injEq .. ▸ Option.some.inj hsome
            subst h2
            exact ⟨nm, rd, cs', by simp [EntryList.toList],
              Bool.not_eq_true _ ▸ hdot, ha, hc, h1.symm⟩
          · rw [if_neg hc] at hsome; cases hsome
      · obtain ⟨n, rd', cs'', hmem, hdot, hcl, hchild, hp⟩ := h
        exact ⟨n, rd', cs'', by simp [EntryList.toList, hmem], hdot, hcl, hchild, hp⟩
    · rintro ⟨n, rd', cs'', hmem, hdot, hcl, hchild, hp⟩
      rw [EntryList.toList, List.mem_cons] at hmem
      rcases hmem with hmem | hmem
      · obtain ⟨e1, e2, e3⟩ := Entry.dir.inj hmem.symm
        subst e1; subst e3
        left
        rw [if_neg (by rw [hdot]; exact Bool.false_ne_true)]
        exact List.mem_filterMap.mpr ⟨t, hcl, by rw [if_pos hchild, hp]⟩
      · exact Or.inr ⟨n, rd', cs'', hmem, hdot, hcl, hchild, hp⟩

/-- C6 (amended): on a repository root directory, `find_cleanable_directories`
returns exactly the matches at `repoRoot/name` and at `repoRoot/*/name` for
immediate non-hidden subdirectories (the latter only when the root is
readable), so every returned path has one or two segments and nothing deeper
is searched.  The one-level pass probes every non-hidden immediate
subdirectory, including subdirectories that are themselves matched
artifacts. -/
theorem find_cleanable_directories_exact (nm : String) (rd : Bool) (cs : EntryList)
    (cl : List String) (p : List String) (t : String) :
    fcdMem (.dir nm rd cs) cl p t ↔
      (t ∈ cl ∧ ((p = [t] ∧ hasDirChild cs t = true) ∨
        (rd = true ∧ ∃ n rd' cs', Entry.dir n rd' cs' ∈ EntryList.toList cs ∧
          startsWithDot n = false ∧ hasDirChild cs' t = true ∧ p = [n, t]))) := by
  unfold fcdMem find_cleanable_directories
  constructor
  · rintro ⟨l, hl, hmem⟩
    obtain rfl := Except.ok.inj hl
    rcases List.mem_append.mp hmem with h | h
    · obtain ⟨h1, h2, h3⟩ := mem_rootMatches.mp h
      exact ⟨h1, Or.inl ⟨h3, h2⟩⟩
    · by_cases hrd : rd = true
      · rw [if_pos hrd] at h
        obtain ⟨n, rd', cs', hmem', hdot, hcl, hchild, hp⟩ := (mem_deepMatches cs).mp h
        exact ⟨hcl, Or.inr ⟨hrd, n, rd', cs', hmem', hdot, hchild, hp⟩⟩
      · rw [if_neg hrd] at h; cases h
  · rintro ⟨hcl, h | h⟩
    · exact ⟨_, rfl, List.mem_append.mpr (Or.inl (mem_rootMatches.mpr ⟨hcl, h.2, h.1⟩))⟩
    · obtain ⟨hrd, n, rd', cs', hmem', hdot, hchild, hp⟩ := h
      refine ⟨_, rfl, List.mem_append.mpr (Or.inr ?_)⟩
      rw [if_pos hrd]
      exact (mem_deepMatches cs).mpr ⟨n, rd', cs', hmem', hdot, hcl, hchild, hp⟩

/-- A repository whose root `node_modules` directly contains another
directory named `node_modules`. -/
def nestedArtifactTree : Entry :=
  .dir "repo" true
    (.cons (.dir "node_modules" true (.cons (.dir "node_modules" true .nil) .nil)) .nil)

/-- Counterexample to C6 as stated: the one-level-deep pass does look inside
an already-matched artifact directory.  On `nestedArtifactTree` the located
`node_modules` is itself probed as an immediate subdirectory, so the result
contains both `node_modules` and `node_modules/node_modules`, the second
strictly inside the first matched artifact. -/
theorem find_cleanable_directories_probes_matched_artifact :
    find_cleanable_directories nestedArtifactTree ["node_modules"] =
      .ok [(["node_modules"], "node_modules"),
           (["node_modules", "node_modules"], "node_modules")] ∧
    (["node_modules"] : List String) <+: ["node_modules", "node_modules"] ∧
    (["node_modules"] : List String) ≠ ["node_modules", "node_modules"] := by
  refine ⟨rfl, ⟨["node_modules"], by decide⟩, by decide⟩

/-! ## External process model

`subprocess.run(..., capture_output=True, check=True, timeout=T)` is observed
through its outcome: captured stdout on success, `CalledProcessError` on a
nonzero exit status, `TimeoutExpired` when the timeout elapses, and
`FileNotFoundError` when the executable is missing. -/
inductive ProcOutcome where
  | ok (stdout : String)
  | calledProcessError
  | timeoutExpired
  | fileNotFound
deriving DecidableEq, Repr

/-- Python `str.strip()`: remove leading and trailing whitespace. -/
def pyStrip (cs : List Char) : List Char :=
  ((cs.dropWhile Char.isWhitespace).reverse.dropWhile Char.isWhitespace).reverse

/-- Python `s.split("|", 1)` when `"|"` occurs in `s`: the text before the
first `"|"` and everything after it.  `none` when there is no `"|"`, in which
case the two-name unpacking in the Python code raises `ValueError`. -/
def splitOncePipe : List Char → Option (List Char × List Char)
  | [] => none
  | c :: cs =>
    if c = '|' then some ([], cs)
    else (splitOncePipe cs).map fun pr => (c :: pr.1, pr.2)

def digitsValAux : Nat → List Char → Option Nat
  | acc, [] => some acc
  | acc, c :: cs =>
    if c.isDigit then digitsValAux (acc * 10 + (c.toNat - '0'.toNat)) cs else none

def digitsVal : List Char → Option Nat
  | [] => none
  | cs => digitsValAux 0 cs

/-- Python `int(s)`: optional surrounding whitespace, optional sign, decimal
digits; `none` models the `ValueError` raised on anything else. -/
def pyParseInt (cs : List Char) : Option Int :=
  match pyStrip cs with
  | '-' :: ds => (digitsVal ds).map fun n => -(n : Int)
  | '+' :: ds => (digitsVal ds).map fun n => (n : Int)
  | ds => (digitsVal ds).map fun n => (n : Int)

/-- Python `s.split()[0]`: first whitespace-delimited token, `none` when the
string has no token (in which case the indexing raises `IndexError`). -/
def firstToken (cs : List Char) : Option (List Char) :=
  let t := (cs.dropWhile Char.isWhitespace).takeWhile fun c => !c.isWhitespace
  if t.isEmpty then none else some t

/-- `get_last_commit_info(repo_path)` (git.py:14-41) as a function of the
outcome of `git log -1 --format=%ct|%s` in that repository.  The caught
exceptions are `CalledProcessError`, `ValueError` and `TimeoutExpired`;
`FileNotFoundError` (missing `git` binary) is not caught and propagates. -/
def get_last_commit_info (po : ProcOutcome) : Except PyExc (Option (Int × String)) :=
  match po with
  | .ok s =>
    let output := pyStrip s.data
    if output.isEmpty then .ok none
    else
      match splitOncePipe output with
      | none => .ok none
      | some (tsStr, message) =>
        match pyParseInt tsStr with
        | none => .ok none
        | some ts => .ok (some (ts, message.asString))
  | .calledProcessError => .ok none
  | .timeoutExpired => .ok none
  | .fileNotFound => .error .fileNotFound

/-- `get_directory_size(path)` (filesystem.py:7-27) as a function of the
outcome of `du -sk path`: the first stdout token parsed as whole kilobytes
times 1024.  Caught: `CalledProcessError`, `ValueError`, `TimeoutExpired`;
not caught: `FileNotFoundError` (missing `du`) and the `IndexError` from
indexing an empty token list. -/
def get_directory_size (po : ProcOutcome) : Except PyExc Int :=
  match po with
  | .ok s =>
    match firstToken s.data with
    | none => .error .indexError
    | some tok =>
      match pyParseInt tok with
      | none => .ok 0
      | some kb => .ok (kb * 1024)
  | .calledProcessError => .ok 0
  | .timeoutExpired => .ok 0
  | .fileNotFound => .error .fileNotFound

/-- Counterexample to C7 as stated: a missing external binary raises
`FileNotFoundError` to the caller — neither `get_last_commit_info` nor
`get_directory_size` includes `FileNotFoundError` in its caught-exception
tuple, so that failure is not converted into an absent result or a zero
size. -/
theorem inspection_missing_binary_raises :
    get_last_commit_info .fileNotFound = .error .fileNotFound ∧
      get_directory_size .fileNotFound = .error .fileNotFound :=
  ⟨rfl, rfl⟩

/-- C7 (amended): a VCS or size tool command failure or timeout is converted
into an absent commit result (`None` from `get_last_commit_info`) or a zero
size (`0` from `get_directory_size`) and is never raised to the caller; a
missing external binary, by contrast, raises `FileNotFoundError`. -/
theorem inspection_failures_recovered (po : ProcOutcome)
    (h : po = .calledProcessError ∨ po = .timeoutExpired) :
    get_last_commit_info po = .ok none ∧ get_directory_size po = .ok 0 := by
  rcases h with h | h <;> subst h <;> exact ⟨rfl, rfl⟩

/-- Witness for C7 (amended) at the concrete outcome `CalledProcessError`. -/
theorem inspection_failures_recovered_witness :
    get_last_commit_info .calledProcessError = .ok none ∧
      get_directory_size .calledProcessError = .ok 0 :=
  inspection_failures_recovered .calledProcessError (Or.inl rfl)

/-! ## Data model (models.py) -/

structure CleanableDirectory where
  path : List String
  dir_type : String
  size_bytes : Int
deriving DecidableEq, Repr

structure StaleProject where
  path : List String
  name : String
  last_commit_date : PyDateTime
  last_commit_message : String
  cleanable_dirs : List CleanableDirectory
deriving DecidableEq, Repr

/-- An entry of the scanner's debug `ignored_repos` list (scanner.py:71-117). -/
structure IgnoredRepo where
  path : List String
  reason : String
  last_commit_date : Option PyDateTime
deriving DecidableEq, Repr

/-- The `ScanResult` dataclass (models.py:43-55).  Its fields are exactly the
eight below; in particular it has no `ignored_repos` field. -/
structure ScanResult where
  stale_projects : List StaleProject
  total_repos_scanned : Nat
  older_than_months : Option Nat
  younger_than_months : Option Nat
  filtered_too_recent : Nat
  filtered_too_old : Nat
  filtered_no_commits : Nat
  filtered_no_cleanable : Nat
deriving DecidableEq, Repr

/-! ## Scan orchestrator (`scan_for_stale_projects`, scanner.py:14-152) -/

/-- A configured scan root: its path, and its filesystem tree when it exists
(`none` models `root.exists()` being false). -/
structure RootDir where
  path : List String
  fs : Option Entry
deriving DecidableEq, Repr

/-- The external world observed by one scan: the current time and, for each
absolute path, the outcome of the `git log` and `du` invocations there. -/
structure ScanEnv where
  now : PyDateTime
  gitLog : List String → ProcOutcome
  du : List String → ProcOutcome

/-- Filesystem path resolution: follow the (unique, in a well-formed tree)
child of each name in turn. -/
def lookupChild : EntryList → String → Option Entry
  | .nil, _ => none
  | .cons e es, n => if entryName e = n then some e else lookupChild es n

def lookupEntry : Entry → List String → Option Entry
  | e, [] => some e
  | .file _, _ :: _ => none
  | .dir _ _ cs, n :: rest =>
    match lookupChild cs n with
    | some c => lookupEntry c rest
    | none => none

/-- `Path.name`: the final path segment. -/
def pathName (p : List String) : String := p.getLast?.getD ""

/-- `if older_cutoff and last_commit_date >= older_cutoff` (scanner.py:83):
a `datetime` is always truthy, so this is exactly "an older bound is set and
the commit date is at or after the cutoff". -/
def matchesOlderBound (oc : Option PyDateTime) (t : PyDateTime) : Bool :=
  match oc with
  | none => false
  | some c => pyLe c t

/-- `if younger_cutoff and last_commit_date < younger_cutoff` (scanner.py:94). -/
def matchesYoungerBound (yc : Option PyDateTime) (t : PyDateTime) : Bool :=
  match yc with
  | none => false
  | some c => pyLt t c

/-- A commit date passes both active age filters. -/
def ageOk (oc yc : Option PyDateTime) (t : PyDateTime) : Bool :=
  !matchesOlderBound oc t && !matchesYoungerBound yc t

/-- How the scanner's per-repository loop body disposes of one repository:
each iteration either skips it for one of the four counted reasons or
assembles a `StaleProject` from it. -/
inductive RepoOutcome where
  | noCommits
  | tooRecent (t : PyDateTime)
  | tooOld (t : PyDateTime)
  | noCleanable (t : PyDateTime)
  | included (p : StaleProject)
deriving DecidableEq, Repr

/-- The `for dir_path, dir_type in cleanable` sizing loop (scanner.py:121-130):
one `get_directory_size` call per found artifact directory.  `absPath` is the
repository path; artifact paths are made absolute against it. -/
def sizeDirs (env : ScanEnv) (absPath : List String) :
    List (List String × String) → Except PyExc (List CleanableDirectory)
  | [] => .ok []
  | (rel, ty) :: rest =>
    match get_directory_size (env.du (absPath ++ rel)) with
    | .error e => .error e
    | .ok n =>
      match sizeDirs env absPath rest with
      | .error e => .error e
      | .ok objs => .ok ({ path := absPath ++ rel, dir_type := ty, size_bytes := n } :: objs)

/-- The tail of the scanner's loop body after the age filters pass
(scanner.py:106-140): find the cleanable directories of the repository
(resolved from the root tree by its relative path), drop the repository if
there are none, otherwise size each artifact and assemble a `StaleProject`. -/
def classifyRest (env : ScanEnv) (cl : List String) (rootFs : Entry)
    (rootPath rel : List String) (t : PyDateTime) (msg : String) :
    Except PyExc RepoOutcome :=
  let absPath := rootPath ++ rel
  match lookupEntry rootFs rel with
  | none => .error .fileNotFound
  | some repoEntry =>
    match find_cleanable_directories repoEntry cl with
    | .error e => .error e
    | .ok cleanable =>
      if cleanable.isEmpty then .ok (.noCleanable t)
      else
        match sizeDirs env absPath cleanable with
        | .error e => .error e
        | .ok objs =>
          .ok (.included
            { path := absPath
              name := pathName absPath
              last_commit_date := t
              last_commit_message := msg
              cleanable_dirs := objs })

/-- The body of the scanner's `for repo_path in repos` loop
(scanner.py:66-140), from the `get_last_commit_info` call to either a
`continue` (with the reason) or the construction of a `StaleProject`.
`rootFs`/`rootPath` identify the scan root; `rel` is the repository path
relative to it (as returned by `find_git_repos`). -/
def classifyRepo (env : ScanEnv) (oc yc : Option PyDateTime) (cl : List String)
    (rootFs : Entry) (rootPath rel : List String) : Except PyExc RepoOutcome :=
  match get_last_commit_info (env.gitLog (rootPath ++ rel)) with
  | .error e => .error e
  | .ok none => .ok .noCommits
  | .ok (some (ts, msg)) =>
    let t := fromtimestamp ts
    if matchesOlderBound oc t then .ok (.tooRecent t)
    else if matchesYoungerBound yc t then .ok (.tooOld t)
    else classifyRest env cl rootFs rootPath rel t msg

/-- The scanner's accumulator state: the local variables of
`scan_for_stale_projects` (scanner.py:45-53). -/
structure ScanState where
  stale_projects : List StaleProject
  total_repos : Nat
  ignored_repos : List IgnoredRepo
  filtered_too_recent : Nat
  filtered_too_old : Nat
  filtered_no_commits : Nat
  filtered_no_cleanable : Nat
deriving DecidableEq, Repr

def initState : ScanState :=
  { stale_projects := []
    total_repos := 0
    ignored_repos := []
    filtered_too_recent := 0
    filtered_too_old := 0
    filtered_no_commits := 0
    filtered_no_cleanable := 0 }

/-- How one repository outcome updates the accumulators: exactly one of the
four counters, or the result list, grows; the debug list grows for a skipped
repository when `debug` is set. -/
def applyOutcome (dbg : Bool) (absPath : List String) (st : ScanState) :
    RepoOutcome → ScanState
  | .noCommits =>
    { st with
      filtered_no_commits := st.filtered_no_commits + 1
      ignored_repos :=
        if dbg then st.ignored_repos ++ [⟨absPath, "no commits", none⟩]
        else st.ignored_repos }
  | .tooRecent t =>
    { st with
      filtered_too_recent := st.filtered_too_recent + 1
      ignored_repos :=
        if dbg then st.ignored_repos ++ [⟨absPath, "too recent", some t⟩]
        else st.ignored_repos }
  | .tooOld t =>
    { st with
      filtered_too_old := st.filtered_too_old + 1
      ignored_repos :=
        if dbg then st.ignored_repos ++ [⟨absPath, "too old", some t⟩]
        else st.ignored_repos }
  | .noCleanable t =>
    { st with
      filtered_no_cleanable := st.filtered_no_cleanable + 1
      ignored_repos :=
        if dbg then st.ignored_repos ++ [⟨absPath, "no cleanable directories", some t⟩]
        else st.ignored_repos }
  | .included p => { st with stale_projects := st.stale_projects ++ [p] }

/-- The `for repo_path in repos` loop (scanner.py:63-140): count the
repository, classify it, update the accumulators; a Python exception inside
the body aborts the whole scan. -/
def processRepos (env : ScanEnv) (oc yc : Option PyDateTime) (cl : List String)
    (dbg : Bool) (rootFs : Entry) (rootPath : List String) (st : ScanState) :
    List (List String) → Except PyExc ScanState
  | [] => .ok st
  | rel :: rest =>
    let st1 := { st with total_repos := st.total_repos + 1 }
    match classifyRepo env oc yc cl rootFs rootPath rel with
    | .error e => .error e
    | .ok out =>
      processRepos env oc yc cl dbg rootFs rootPath
        (applyOutcome dbg (rootPath ++ rel) st1 out) rest

/-- The `for root in roots` loop (scanner.py:55-140): a missing root is
skipped with a warning; an existing one is scanned with `find_git_repos`. -/
def processRoots (env : ScanEnv) (oc yc : Option PyDateTime) (cl : List String)
    (dbg : Bool) (st : ScanState) : List RootDir → Except PyExc ScanState
  | [] => .ok st
  | r :: rest =>
    match r.fs with
    | none => processRoots env oc yc cl dbg st rest
    | some fsRoot =>
      match processRepos env oc yc cl dbg fsRoot r.path st (find_git_repos fsRoot) with
      | .error e => .error e
      | .ok st' => processRoots env oc yc cl dbg st' rest

/-- `older_cutoff = datetime.now() - relativedelta(months=older_than_months)`
when the bound is set (scanner.py:41-44); likewise for the younger cutoff. -/
def cutoffOf (now : PyDateTime) : Option Nat → Option PyDateTime
  | none => none
  | some m => some (subMonths now m)

/-- Everything `scan_for_stale_projects` computes before its final `return`:
the full accumulator state reached by the two nested loops. -/
def scanCompute (env : ScanEnv) (roots : List RootDir) (older younger : Option Nat)
    (cl : List String) (dbg : Bool) : Except PyExc ScanState :=
  processRoots env (cutoffOf env.now older) (cutoffOf env.now younger) cl dbg
    initState roots

/-- The field names of the `ScanResult` dataclass (models.py:47-55), whose
generated `__init__` accepts exactly these keywords. -/
def scanResultFieldNames : List String :=
  ["stale_projects", "total_repos_scanned", "older_than_months", "younger_than_months",
   "filtered_too_recent", "filtered_too_old", "filtered_no_commits",
   "filtered_no_cleanable"]

/-- The keyword arguments passed to `ScanResult(...)` at the scanner's final
`return` (scanner.py:142-152). -/
def scannerResultKwargs : List String :=
  ["stale_projects", "total_repos_scanned", "older_than_months", "younger_than_months",
   "ignored_repos", "filtered_too_recent", "filtered_too_old", "filtered_no_commits",
   "filtered_no_cleanable"]

/-- A dataclass `__init__` accepts a keyword call iff every keyword names a
declared field (otherwise it raises `TypeError`). -/
def dataclassCallOk : Bool :=
  scannerResultKwargs.all fun k => scanResultFieldNames.contains k

/-- `scan_for_stale_projects` (scanner.py:14-152): run the scan loops, then
construct the `ScanResult` with the keyword arguments of scanner.py:142-152,
which raises `TypeError` if any keyword is not a dataclass field. -/
def scan_for_stale_projects (env : ScanEnv) (roots : List RootDir)
    (older younger : Option Nat) (cl : List String) (dbg : Bool) :
    Except PyExc ScanResult :=
  match scanCompute env roots older younger cl dbg with
  | .error e => .error e
  | .ok st =>
    if dataclassCallOk then
      .ok { stale_projects := st.stale_projects
            total_repos_scanned := st.total_repos
            older_than_months := older
            younger_than_months := younger
            filtered_too_recent := st.filtered_too_recent
            filtered_too_old := st.filtered_too_old
            filtered_no_commits := st.filtered_no_commits
            filtered_no_cleanable := st.filtered_no_cleanable }
    else .error .typeError

/-- The call raises a Python exception instead of returning. -/
def raisesException (r : Except PyExc ScanResult) : Bool :=
  match r with
  | .error _ => true
  | .ok _ => false

/-- C1 (code defect): every invocation of `scan_for_stale_projects` raises —
the final `ScanResult(...)` call passes the keyword `ignored_repos`, which
is not a field of the `ScanResult` dataclass, so the generated `__init__`
raises `TypeError` on every path that reaches the `return` (and any earlier
uncaught exception also aborts the call).  The function can never return a
`ScanResult`. -/
theorem scan_for_stale_projects_always_raises (env : ScanEnv) (roots : List RootDir)
    (older younger : Option Nat) (cl : List String) (dbg : Bool) :
    raisesException (scan_for_stale_projects env roots older younger cl dbg) = true := by
  unfold scan_for_stale_projects
  cases h : scanCompute env roots older younger cl dbg
  · rfl
  · have : dataclassCallOk = false := by decide
    rw [this]
    rfl

/-! ### Decomposition of the scan loops

The two nested loops of `scan_for_stale_projects` are equivalent to:
classify every located repository in order, then fold the outcomes through
the accumulator update.  This section proves that equivalence and the
resulting counting facts. -/

/-- All repositories located by the scan, with their scan-root context:
for each existing root, `find_git_repos` in discovery order. -/
def locatedRepos (roots : List RootDir) : List (Entry × List String × List String) :=
  roots.flatMap fun r =>
    match r.fs with
    | none => []
    | some fs => (find_git_repos fs).map fun rel => (fs, r.path, rel)

/-- Classify every located repository in order, stopping at the first
uncaught exception; pairs each outcome with the repository's absolute
path. -/
def classifyAll (env : ScanEnv) (oc yc : Option PyDateTime) (cl : List String) :
    List (Entry × List String × List String) →
      Except PyExc (List (List String × RepoOutcome))
  | [] => .ok []
  | (fs, rp, rel) :: rest =>
    match classifyRepo env oc yc cl fs rp rel with
    | .error e => .error e
    | .ok out =>
      match classifyAll env oc yc cl rest with
      | .error e => .error e
      | .ok l => .ok ((rp ++ rel, out) :: l)

/-- One loop iteration as a fold step: count the repository, then apply its
outcome. -/
def stepOutcome (dbg : Bool) (st : ScanState) (po : List String × RepoOutcome) :
    ScanState :=
  applyOutcome dbg po.1 { st with total_repos := st.total_repos + 1 } po.2

theorem processRepos_eq_classifyAll (env : ScanEnv) (oc yc : Option PyDateTime)
    (cl : List String) (dbg : Bool) (fs : Entry) (rp : List String) :
    ∀ (rs : List (List String)) (st : ScanState),
      processRepos env oc yc cl dbg fs rp st rs =
        (classifyAll env oc yc cl (rs.map fun rel => (fs, rp, rel))).map
          (List.foldl (stepOutcome dbg) st)
  | [], st => rfl
  | rel :: rest, st => by
    rw [processRepos, List.map_cons, classifyAll]
    cases hc : classifyRepo env oc yc cl fs rp rel with
    | error e => rfl
    | ok out =>
      dsimp only
      rw [processRepos_eq_classifyAll env oc yc cl dbg fs rp rest]
      cases hrest : classifyAll env oc yc cl (rest.map fun rel => (fs, rp, rel)) with
      | error e => rfl
      | ok l =>
        simp only [Except.map, List.foldl_cons]
        rfl

theorem classifyAll_append (env : ScanEnv) (oc yc : Option PyDateTime)
    (cl : List String) :
    ∀ (l1 l2 : List (Entry × List String × List String)),
      classifyAll env oc yc cl (l1 ++ l2) =
        match classifyAll env oc yc cl l1 with
        | .error e => .error e
        | .ok a =>
          match classifyAll env oc yc cl l2 with
          | .error e => .error e
          | .ok b => .ok (a ++ b)
  | [], l2 => by
    cases h2 : classifyAll env oc yc cl l2 with
    | error e => simp [classifyAll, h2]
    | ok b => simp [classifyAll, h2]
  | (fs, rp, rel) :: rest, l2 => by
    rw [List.cons_append, classifyAll, classifyAll]
    cases hc : classifyRepo env oc yc cl fs rp rel with
    | error e => rfl
    | ok out =>
      dsimp only
      rw [classifyAll_append env oc yc cl rest l2]
      cases hrest : classifyAll env oc yc cl rest with
      | error e => rfl
      | ok a =>
        cases h2 : classifyAll env oc yc cl l2 with
        | error e => rfl
        | ok b => rfl

theorem processRoots_eq_classifyAll (env : ScanEnv) (oc yc : Option PyDateTime)
    (cl : List String) (dbg : Bool) :
    ∀ (roots : List RootDir) (st : ScanState),
      processRoots env oc yc cl dbg st roots =
        (classifyAll env oc yc cl (locatedRepos roots)).map
          (List.foldl (stepOutcome dbg) st)
  | [], st => rfl
  | r :: rest, st => by
    rw [processRoots]
    cases hfs : r.fs with
    | none =>
      rw [processRoots_eq_classifyAll env oc yc cl dbg rest st]
      have : locatedRepos (r :: rest) = locatedRepos rest := by
        simp [locatedRepos, hfs]
      rw [this]
    | some fs =>
      have hloc : locatedRepos (r :: rest) =
          ((find_git_repos fs).map fun rel => (fs, r.path, rel)) ++ locatedRepos rest := by
        simp [locatedRepos, hfs]
      dsimp only
      rw [hloc, classifyAll_append,
        processRepos_eq_classifyAll env oc yc cl dbg fs r.path (find_git_repos fs) st]
      cases h1 : classifyAll env oc yc cl
          ((find_git_repos fs).map fun rel => (fs, r.path, rel)) with
      | error e => rfl
      | ok a =>
        simp only [Except.map]
        rw [processRoots_eq_classifyAll env oc yc cl dbg rest]
        cases h2 : classifyAll env oc yc cl (locatedRepos rest) with
        | error e => rfl
        | ok b =>
          simp only [Except.map, List.foldl_append]

/-- Which outcome bucket a classified repository falls into. -/
def includedProject : RepoOutcome → Option StaleProject
  | .noCommits => none
  | .tooRecent _ => none
  | .tooOld _ => none
  | .noCleanable _ => none
  | .included p => some p

def isTooRecent : RepoOutcome → Bool
  | .noCommits => false
  | .tooRecent _ => true
  | .tooOld _ => false
  | .noCleanable _ => false
  | .included _ => false

def isTooOld : RepoOutcome → Bool
  | .noCommits => false
  | .tooRecent _ => false
  | .tooOld _ => true
  | .noCleanable _ => false
  | .included _ => false

def isNoCommits : RepoOutcome → Bool
  | .noCommits => true
  | .tooRecent _ => false
  | .tooOld _ => false
  | .noCleanable _ => false
  | .included _ => false

def isNoCleanable : RepoOutcome → Bool
  | .noCommits => false
  | .tooRecent _ => false
  | .tooOld _ => false
  | .noCleanable _ => true
  | .included _ => false

theorem stepOutcome_fields (dbg : Bool) (st : ScanState) (po : List String × RepoOutcome) :
    (stepOutcome dbg st po).total_repos = st.total_repos + 1 ∧
    (stepOutcome dbg st po).stale_projects =
      st.stale_projects ++ (includedProject po.2).toList ∧
    (stepOutcome dbg st po).filtered_too_recent =
      st.filtered_too_recent + (if isTooRecent po.2 then 1 else 0) ∧
    (stepOutcome dbg st po).filtered_too_old =
      st.filtered_too_old + (if isTooOld po.2 then 1 else 0) ∧
    (stepOutcome dbg st po).filtered_no_commits =
      st.filtered_no_commits + (if isNoCommits po.2 then 1 else 0) ∧
    (stepOutcome dbg st po).filtered_no_cleanable =
      st.filtered_no_cleanable + (if isNoCleanable po.2 then 1 else 0) := by
  obtain ⟨p, out⟩ := po
  cases out <;>
    simp [stepOutcome, applyOutcome, includedProject, isTooRecent, isTooOld,
      isNoCommits, isNoCleanable]

theorem foldl_step_total (dbg : Bool) :
    ∀ (l : List (List String × RepoOutcome)) (st : ScanState),
      (l.foldl (stepOutcome dbg) st).total_repos = st.total_repos + l.length
  | [], st => by simp
  | po :: rest, st => by
    rw [List.foldl_cons, foldl_step_total dbg rest, (stepOutcome_fields dbg st po).1,
      List.length_cons]
    omega

theorem foldl_step_projects (dbg : Bool) :
    ∀ (l : List (List String × RepoOutcome)) (st : ScanState),
      (l.foldl (stepOutcome dbg) st).stale_projects =
        st.stale_projects ++ l.filterMap (fun po => includedProject po.2)
  | [], st => by simp
  | po :: rest, st => by
    rw [List.foldl_cons, foldl_step_projects dbg rest,
      (stepOutcome_fields dbg st po).2.1, List.filterMap_cons]
    cases h : includedProject po.2 <;> simp [h]

theorem foldl_step_ftr (dbg : Bool) :
    ∀ (l : List (List String × RepoOutcome)) (st : ScanState),
      (l.foldl (stepOutcome dbg) st).filtered_too_recent =
        st.filtered_too_recent + l.countP (fun po => isTooRecent po.2)
  | [], st => by simp
  | po :: rest, st => by
    rw [List.foldl_cons, foldl_step_ftr dbg rest,
      (stepOutcome_fields dbg st po).2.2.1, List.countP_cons]
    cases h : isTooRecent po.2 <;> simp [h] <;> omega

theorem foldl_step_fto (dbg : Bool) :
    ∀ (l : List (List String × RepoOutcome)) (st : ScanState),
      (l.foldl (stepOutcome dbg) st).filtered_too_old =
        st.filtered_too_old + l.countP (fun po => isTooOld po.2)
  | [], st => by simp
  | po :: rest, st => by
    rw [List.foldl_cons, foldl_step_fto dbg rest,
      (stepOutcome_fields dbg st po).2.2.2.1, List.countP_cons]
    cases h : isTooOld po.2 <;> simp [h] <;> omega

theorem foldl_step_fnc (dbg : Bool) :
    ∀ (l : List (List String × RepoOutcome)) (st : ScanState),
      (l.foldl (stepOutcome dbg) st).filtered_no_commits =
        st.filtered_no_commits + l.countP (fun po => isNoCommits po.2)
  | [], st => by simp
  | po :: rest, st => by
    rw [List.foldl_cons, foldl_step_fnc dbg rest,
      (stepOutcome_fields dbg st po).2.2.2.2.1, List.countP_cons]
    cases h : isNoCommits po.2 <;> simp [h] <;> omega

theorem foldl_step_fncl (dbg : Bool) :
    ∀ (l : List (List String × RepoOutcome)) (st : ScanState),
      (l.foldl (stepOutcome dbg) st).filtered_no_cleanable =
        st.filtered_no_cleanable + l.countP (fun po => isNoCleanable po.2)
  | [], st => by simp
  | po :: rest, st => by
    rw [List.foldl_cons, foldl_step_fncl dbg rest,
      (stepOutcome_fields dbg st po).2.2.2.2.2, List.countP_cons]
    cases h : isNoCleanable po.2 <;> simp [h] <;> omega

theorem classifyAll_length (env : ScanEnv) (oc yc : Option PyDateTime)
    (cl : List String) :
    ∀ (l : List (Entry × List String × List String)) (ocs : List (List String × RepoOutcome)),
      classifyAll env oc yc cl l = .ok ocs → ocs.length = l.length
  | [], ocs, h => by
    rw [classifyAll] at h
    obtain rfl := Except.ok.inj h
    rfl
  | (fs, rp, rel) :: rest, ocs, h => by
    rw [classifyAll] at h
    cases hc : classifyRepo env oc yc cl fs rp rel with
    | error e => rw [hc] at h; cases h
    | ok out =>
      rw [hc] at h
      cases hrest : classifyAll env oc yc cl rest with
      | error e => rw [hrest] at h; cases h
      | ok l' =>
        rw [hrest] at h
        obtain rfl := Except.ok.inj h
        simp [classifyAll_length env oc yc cl rest l' hrest]

/-- Every outcome lands in exactly one bucket, so the loop preserves the
identity "repositories examined = included + too-recent + too-old +
no-commits + no-cleanable". -/
theorem foldl_step_invariant (dbg : Bool) :
    ∀ (l : List (List String × RepoOutcome)) (st : ScanState),
      st.total_repos = st.stale_projects.length + st.filtered_too_recent +
        st.filtered_too_old + st.filtered_no_commits + st.filtered_no_cleanable →
      (l.foldl (stepOutcome dbg) st).total_repos =
        (l.foldl (stepOutcome dbg) st).stale_projects.length +
        (l.foldl (stepOutcome dbg) st).filtered_too_recent +
        (l.foldl (stepOutcome dbg) st).filtered_too_old +
        (l.foldl (stepOutcome dbg) st).filtered_no_commits +
        (l.foldl (stepOutcome dbg) st).filtered_no_cleanable
  | [], st, h => h
  | po :: rest, st, h => by
    rw [List.foldl_cons]
    refine foldl_step_invariant dbg rest _ ?_
    obtain ⟨h1, h2, h3, h4, h5, h6⟩ := stepOutcome_fields dbg st po
    rw [h1, h2, h3, h4, h5, h6, List.length_append]
    obtain ⟨p, out⟩ := po
    cases out <;>
      simp [includedProject, isTooRecent, isTooOld, isNoCommits, isNoCleanable] <;>
      omega

/-! ### Properties of the per-repository classification -/

theorem sizeDirs_sizes (env : ScanEnv) (a : List String) :
    ∀ (l : List (List String × String)) (objs : List CleanableDirectory),
      sizeDirs env a l = .ok objs →
      objs.length = l.length ∧
      ∀ d ∈ objs, ∃ rel, get_directory_size (env.du (a ++ rel)) = .ok d.size_bytes
  | [], objs, h => by
    rw [sizeDirs] at h
    obtain rfl := Except.ok.inj h
    exact ⟨rfl, by simp⟩
  | (rel, ty) :: rest, objs, h => by
    rw [sizeDirs] at h
    cases hg : get_directory_size (env.du (a ++ rel)) with
    | error e => rw [hg] at h; cases h
    | ok n =>
      rw [hg] at h
      cases hr : sizeDirs env a rest with
      | error e => rw [hr] at h; cases h
      | ok objs' =>
        rw [hr] at h
        obtain rfl := Except.ok.inj h
        obtain ⟨ih1, ih2⟩ := sizeDirs_sizes env a rest objs' hr
        refine ⟨by simp [ih1], ?_⟩
        intro d hd
        rcases List.mem_cons.mp hd with hd | hd
        · subst hd; exact ⟨rel, hg⟩
        · exact ih2 d hd

theorem classifyRepo_eq_of_commit (env : ScanEnv) (oc yc : Option PyDateTime)
    (cl : List String) (fs : Entry) (rp rel : List String) (ts : Int) (msg : String)
    (hg : get_last_commit_info (env.gitLog (rp ++ rel)) = .ok (some (ts, msg))) :
    classifyRepo env oc yc cl fs rp rel =
      if matchesOlderBound oc (fromtimestamp ts) then .ok (.tooRecent (fromtimestamp ts))
      else if matchesYoungerBound yc (fromtimestamp ts) then
        .ok (.tooOld (fromtimestamp ts))
      else classifyRest env cl fs rp rel (fromtimestamp ts) msg := by
  unfold classifyRepo
  rw [hg]

theorem classifyRepo_eq_of_no_commit (env : ScanEnv) (oc yc : Option PyDateTime)
    (cl : List String) (fs : Entry) (rp rel : List String)
    (hg : get_last_commit_info (env.gitLog (rp ++ rel)) = .ok none) :
    classifyRepo env oc yc cl fs rp rel = .ok .noCommits := by
  unfold classifyRepo
  rw [hg]

/-- The post-filter tail can only produce a `noCleanable` or an `included`
outcome (or raise). -/
theorem classifyRest_shapes (env : ScanEnv) (cl : List String) (fs : Entry)
    (rp rel : List String) (t : PyDateTime) (msg : String) (out : RepoOutcome)
    (h : classifyRest env cl fs rp rel t msg = .ok out) :
    out = .noCleanable t ∨ ∃ p, out = .included p := by
  unfold classifyRest at h
  cases hl : lookupEntry fs rel with
  | none => rw [hl] at h; cases h
  | some re =>
    rw [hl] at h
    dsimp only at h
    cases hf : find_cleanable_directories re cl with
    | error e => rw [hf] at h; cases h
    | ok cleanable =>
      rw [hf] at h
      dsimp only at h
      by_cases he : cleanable.isEmpty = true
      · rw [if_pos he] at h
        exact Or.inl (Except.ok.inj h).symm
      · rw [if_neg he] at h
        cases hs : sizeDirs env (rp ++ rel) cleanable with
        | error e => rw [hs] at h; cases h
        | ok objs =>
          rw [hs] at h
          dsimp only at h
          exact Or.inr ⟨_, (Except.ok.inj h).symm⟩

/-- What is true of a project assembled by the loop tail: a nonempty artifact
list, the commit date it was given, and per-artifact sizes that came from
`get_directory_size`. -/
theorem classifyRest_included_spec (env : ScanEnv) (cl : List String) (fs : Entry)
    (rp rel : List String) (t : PyDateTime) (msg : String) (p : StaleProject)
    (h : classifyRest env cl fs rp rel t msg = .ok (.included p)) :
    p.cleanable_dirs ≠ [] ∧ p.last_commit_date = t ∧
    ∀ d ∈ p.cleanable_dirs,
      ∃ rel2, get_directory_size (env.du ((rp ++ rel) ++ rel2)) = .ok d.size_bytes := by
  unfold classifyRest at h
  cases hl : lookupEntry fs rel with
  | none => rw [hl] at h; cases h
  | some re =>
    rw [hl] at h
    dsimp only at h
    cases hf : find_cleanable_directories re cl with
    | error e => rw [hf] at h; cases h
    | ok cleanable =>
      rw [hf] at h
      dsimp only at h
      by_cases he : cleanable.isEmpty = true
      · rw [if_pos he] at h
        exact RepoOutcome.noConfusion (Except.ok.inj h)
      · rw [if_neg he] at h
        cases hs : sizeDirs env (rp ++ rel) cleanable with
        | error e => rw [hs] at h; cases h
        | ok objs =>
          rw [hs] at h
          dsimp only at h
          obtain hp := RepoOutcome.included.inj (Except.ok.inj h)
          subst hp
          obtain ⟨hlen, hsz⟩ := sizeDirs_sizes env (rp ++ rel) cleanable objs hs
          refine ⟨?_, rfl, hsz⟩
          intro h0
          dsimp only at h0
          rw [h0] at hlen
          obtain rfl := List.length_eq_zero.mp hlen.symm
          exact he rfl

/-- A project included by the loop body passed both age filters and has at
least one artifact directory. -/
theorem classifyRepo_included_spec (env : ScanEnv) (oc yc : Option PyDateTime)
    (cl : List String) (fs : Entry) (rp rel : List String) (p : StaleProject)
    (h : classifyRepo env oc yc cl fs rp rel = .ok (.included p)) :
    p.cleanable_dirs ≠ [] ∧ ageOk oc yc p.last_commit_date = true := by
  unfold classifyRepo at h
  cases hg : get_last_commit_info (env.gitLog (rp ++ rel)) with
  | error e => rw [hg] at h; cases h
  | ok o =>
    rw [hg] at h
    cases o with
    | none => exact RepoOutcome.noConfusion (Except.ok.inj h)
    | some pr =>
      obtain ⟨ts, msg⟩ := pr
      dsimp only at h
      by_cases hold : matchesOlderBound oc (fromtimestamp ts) = true
      · rw [if_pos hold] at h
        exact RepoOutcome.noConfusion (Except.ok.inj h)
      · rw [if_neg hold] at h
        by_cases hyng : matchesYoungerBound yc (fromtimestamp ts) = true
        · rw [if_pos hyng] at h
          exact RepoOutcome.noConfusion (Except.ok.inj h)
        · rw [if_neg hyng] at h
          obtain ⟨hne, hdate, _⟩ := classifyRest_included_spec env cl fs rp rel
            (fromtimestamp ts) msg p h
          rw [Bool.not_eq_true] at hold hyng
          rw [hdate]
          exact ⟨hne, by simp [ageOk, hold, hyng]⟩

/-- Each classified outcome corresponds to a `classifyRepo` call on a member
of the located-repository list. -/
theorem classifyAll_mem (env : ScanEnv) (oc yc : Option PyDateTime) (cl : List String) :
    ∀ (l : List (Entry × List String × List String))
      (ocs : List (List String × RepoOutcome)),
      classifyAll env oc yc cl l = .ok ocs →
      ∀ po ∈ ocs, ∃ fs rp rel, (fs, rp, rel) ∈ l ∧ po.1 = rp ++ rel ∧
        classifyRepo env oc yc cl fs rp rel = .ok po.2
  | [], ocs, h => by
    rw [classifyAll] at h
    obtain rfl := Except.ok.inj h
    simp
  | (fs, rp, rel) :: rest, ocs, h => by
    rw [classifyAll] at h
    cases hc : classifyRepo env oc yc cl fs rp rel with
    | error e => rw [hc] at h; cases h
    | ok out =>
      rw [hc] at h
      cases hrest : classifyAll env oc yc cl rest with
      | error e => rw [hrest] at h; cases h
      | ok l' =>
        rw [hrest] at h
        obtain rfl := Except.ok.inj h
        intro po hpo
        rcases List.mem_cons.mp hpo with hpo | hpo
        · subst hpo
          exact ⟨fs, rp, rel, List.mem_cons_self .., rfl, hc⟩
        · obtain ⟨fs', rp', rel', hmem, hfst, hcl⟩ :=
            classifyAll_mem env oc yc cl rest l' hrest po hpo
          exact ⟨fs', rp', rel', List.mem_cons_of_mem _ hmem, hfst, hcl⟩

theorem includedProject_eq_some {out : RepoOutcome} {p : StaleProject}
    (h : includedProject out = some p) : out = .included p := by
  cases out <;> simp [includedProject] at h
  rw [h]

/-! ### Concrete scan fixtures for witnesses and counterexamples -/

/-- One scan root `work` containing a single repository `a` (marked by a
`.git` directory) that has no artifact directories. -/
def scanTree : Entry :=
  .dir "work" true (.cons (.dir "a" true (.cons (.dir ".git" true .nil) .nil)) .nil)

/-- A fixed environment: the clock reads 2026-10-12 midnight, `git log`
always reports a commit at epoch second 100, `du` always reports 50 KB. -/
def scanEnv0 : ScanEnv :=
  { now := { year := 2026, month := 10, day := 12, usod := 0 }
    gitLog := fun _ => .ok "100|initial commit"
    du := fun _ => .ok "50 /x" }

def scanRoots0 : List RootDir := [{ path := ["work"], fs := some scanTree }]

/-- The accumulator state that scanning `scanRoots0` under `scanEnv0` with
an older-than bound of 6 months reaches: one repository examined, none
included, one filtered for having no cleanable directories. -/
def scanState1 : ScanState :=
  { stale_projects := []
    total_repos := 1
    ignored_repos := []
    filtered_too_recent := 0
    filtered_too_old := 0
    filtered_no_commits := 0
    filtered_no_cleanable := 1 }

/-! ### Claim theorems about the orchestrator -/

/-- C9: in every computed scan record, the count of repositories examined
equals the number of located repositories under existing roots, and equals
the number of included projects plus the four exclusion counters: every
located repository is counted exactly once. -/
theorem scan_result_counts (env : ScanEnv) (roots : List RootDir)
    (older younger : Option Nat) (cl : List String) (dbg : Bool) (r : ScanState)
    (h : scanCompute env roots older younger cl dbg = .ok r) :
    r.total_repos = (locatedRepos roots).length ∧
    r.total_repos = r.stale_projects.length + r.filtered_too_recent +
      r.filtered_too_old + r.filtered_no_commits + r.filtered_no_cleanable := by
  rw [scanCompute, processRoots_eq_classifyAll] at h
  cases hc : classifyAll env (cutoffOf env.now older) (cutoffOf env.now younger) cl
      (locatedRepos roots) with
  | error e => rw [hc] at h; cases h
  | ok ocs =>
    rw [hc] at h
    dsimp only [Except.map] at h
    obtain rfl := Except.ok.inj h
    constructor
    · rw [foldl_step_total,
        classifyAll_length env (cutoffOf env.now older) (cutoffOf env.now younger) cl
          (locatedRepos roots) ocs hc]
      simp [initState]
    · exact foldl_step_invariant dbg ocs initState rfl

/-- Witness for C9: the empty scan satisfies the counting identity. -/
theorem scan_result_counts_witness :
    initState.total_repos = (locatedRepos ([] : List RootDir)).length ∧
    initState.total_repos = initState.stale_projects.length +
      initState.filtered_too_recent + initState.filtered_too_old +
      initState.filtered_no_commits + initState.filtered_no_cleanable :=
  scan_result_counts scanEnv0 [] none none [] false initState rfl

/-- C3: every project in a computed scan record has at least one artifact
directory and a last-commit date passing the active age filters; the
projects are exactly the `included` outcomes of the per-repository
classification, and the no-cleanable counter counts exactly the repositories
classified `noCleanable` (so an age-passing repository with zero artifact
directories contributes no project and exactly one to that counter). -/
theorem scan_projects_invariant (env : ScanEnv) (roots : List RootDir)
    (older younger : Option Nat) (cl : List String) (dbg : Bool) (r : ScanState)
    (h : scanCompute env roots older younger cl dbg = .ok r) :
    (∀ p ∈ r.stale_projects, p.cleanable_dirs ≠ [] ∧
      ageOk (cutoffOf env.now older) (cutoffOf env.now younger) p.last_commit_date
        = true) ∧
    ∃ ocs, classifyAll env (cutoffOf env.now older) (cutoffOf env.now younger) cl
        (locatedRepos roots) = .ok ocs ∧
      r.stale_projects = ocs.filterMap (fun po => includedProject po.2) ∧
      r.filtered_no_cleanable = ocs.countP (fun po => isNoCleanable po.2) := by
  rw [scanCompute, processRoots_eq_classifyAll] at h
  cases hc : classifyAll env (cutoffOf env.now older) (cutoffOf env.now younger) cl
      (locatedRepos roots) with
  | error e => rw [hc] at h; cases h
  | ok ocs =>
    rw [hc] at h
    dsimp only [Except.map] at h
    obtain rfl := Except.ok.inj h
    have hproj : (List.foldl (stepOutcome dbg) initState ocs).stale_projects =
        ocs.filterMap (fun po => includedProject po.2) := by
      rw [foldl_step_projects]
      simp [initState]
    refine ⟨?_, ocs, rfl, hproj, ?_⟩
    · intro p hp
      rw [hproj] at hp
      obtain ⟨po, hpo, hip⟩ := List.mem_filterMap.mp hp
      have hout := includedProject_eq_some hip
      obtain ⟨fs, rp, rel, _, _, hcl⟩ :=
        classifyAll_mem env (cutoffOf env.now older) (cutoffOf env.now younger) cl
          (locatedRepos roots) ocs hc po hpo
      rw [hout] at hcl
      exact classifyRepo_included_spec env (cutoffOf env.now older)
        (cutoffOf env.now younger) cl fs rp rel p hcl
    · rw [foldl_step_fncl]
      simp [initState]

/-- Witness for C3 at a concrete scan: an age-passing repository with zero
artifact directories yields no project and a no-cleanable count of one. -/
theorem scan_projects_invariant_witness :
    (∀ p ∈ scanState1.stale_projects, p.cleanable_dirs ≠ [] ∧
      ageOk (cutoffOf scanEnv0.now (some 6)) (cutoffOf scanEnv0.now none)
        p.last_commit_date = true) ∧
    ∃ ocs, classifyAll scanEnv0 (cutoffOf scanEnv0.now (some 6))
        (cutoffOf scanEnv0.now none) ["node_modules"] (locatedRepos scanRoots0)
        = .ok ocs ∧
      scanState1.stale_projects = ocs.filterMap (fun po => includedProject po.2) ∧
      scanState1.filtered_no_cleanable = ocs.countP (fun po => isNoCleanable po.2) :=
  scan_projects_invariant scanEnv0 scanRoots0 (some 6) none ["node_modules"] false
    scanState1 rfl

/-- Counterexample to C2 as stated: inclusion is not equivalent to the age
conditions.  Under `scanEnv0` with `older = 6` months, the repository
`work/a` has commit date `fromtimestamp 100` (1970), which passes both age
conditions, yet the scan includes no project at all — the repository has no
recognized artifact directory, so it is excluded and counted no-cleanable. -/
theorem included_iff_age_counterexample :
    ageOk (cutoffOf scanEnv0.now (some 6)) (cutoffOf scanEnv0.now none)
      (fromtimestamp 100) = true ∧
    (scanCompute scanEnv0 scanRoots0 (some 6) none ["node_modules"] false).map
      (fun r => (r.stale_projects, r.filtered_no_cleanable, r.total_repos)) =
      .ok ([], 1, 1) := by
  exact ⟨by decide, rfl⟩

/-- C2 (amended): for a located repository whose commit inspection reports
timestamp `ts`, the scanner counts it too-recent iff an older bound is set
and the commit date is at or after the older cutoff (so a commit exactly at
the cutoff instant is excluded as too-recent); it counts it too-old iff it
is not too-recent, a younger bound is set, and the commit date is strictly
before the younger cutoff; and it includes it only if both age conditions
pass and it has at least one recognized artifact directory. -/
theorem age_filter_characterization (env : ScanEnv) (oc yc : Option PyDateTime)
    (cl : List String) (fs : Entry) (rp rel : List String) (ts : Int) (msg : String)
    (hg : get_last_commit_info (env.gitLog (rp ++ rel)) = .ok (some (ts, msg))) :
    (classifyRepo env oc yc cl fs rp rel = .ok (.tooRecent (fromtimestamp ts)) ↔
      matchesOlderBound oc (fromtimestamp ts) = true) ∧
    (classifyRepo env oc yc cl fs rp rel = .ok (.tooOld (fromtimestamp ts)) ↔
      (matchesOlderBound oc (fromtimestamp ts) = false ∧
        matchesYoungerBound yc (fromtimestamp ts) = true)) ∧
    (∀ p, classifyRepo env oc yc cl fs rp rel = .ok (.included p) →
      ageOk oc yc (fromtimestamp ts) = true ∧ p.cleanable_dirs ≠ []) := by
  rw [classifyRepo_eq_of_commit env oc yc cl fs rp rel ts msg hg]
  by_cases hold : matchesOlderBound oc (fromtimestamp ts) = true
  · rw [if_pos hold]
    refine ⟨⟨fun _ => hold, fun _ => rfl⟩, ⟨fun h => ?_, fun h => ?_⟩, fun p h => ?_⟩
    · exact RepoOutcome.noConfusion (Except.ok.inj h)
    · exact Bool.noConfusion (hold.symm.trans h.1)
    · exact RepoOutcome.noConfusion (Except.ok.inj h)
  · rw [if_neg hold]
    rw [Bool.not_eq_true] at hold
    by_cases hyng : matchesYoungerBound yc (fromtimestamp ts) = true
    · rw [if_pos hyng]
      refine ⟨⟨fun h => ?_, fun h => ?_⟩, ⟨fun _ => ⟨hold, hyng⟩, fun _ => rfl⟩,
        fun p h => ?_⟩
      · exact RepoOutcome.noConfusion (Except.ok.inj h)
      · exact Bool.noConfusion (hold.symm.trans h)
      · exact RepoOutcome.noConfusion (Except.ok.inj h)
    · rw [if_neg hyng]
      rw [Bool.not_eq_true] at hyng
      refine ⟨⟨fun h => ?_, fun h => ?_⟩, ⟨fun h => ?_, fun h => ?_⟩, fun p h => ?_⟩
      · rcases classifyRest_shapes env cl fs rp rel (fromtimestamp ts) msg _ h with
          h2 | ⟨p', h2⟩
        · exact RepoOutcome.noConfusion h2
        · exact RepoOutcome.noConfusion h2
      · exact Bool.noConfusion (hold.symm.trans h)
      · rcases classifyRest_shapes env cl fs rp rel (fromtimestamp ts) msg _ h with
          h2 | ⟨p', h2⟩
        · exact RepoOutcome.noConfusion h2
        · exact RepoOutcome.noConfusion h2
      · exact Bool.noConfusion (hyng.symm.trans h.2)
      · obtain ⟨hne, _, _⟩ :=
          classifyRest_included_spec env cl fs rp rel (fromtimestamp ts) msg p h
        exact ⟨by simp [ageOk, hold, hyng], hne⟩

/-- Witness for C2 (amended) at the concrete fixture, with no bounds set. -/
theorem age_filter_characterization_witness :
    (classifyRepo scanEnv0 none none ["node_modules"] scanTree ["work"] ["a"] =
        .ok (.tooRecent (fromtimestamp 100)) ↔
      matchesOlderBound none (fromtimestamp 100) = true) ∧
    (classifyRepo scanEnv0 none none ["node_modules"] scanTree ["work"] ["a"] =
        .ok (.tooOld (fromtimestamp 100)) ↔
      (matchesOlderBound none (fromtimestamp 100) = false ∧
        matchesYoungerBound none (fromtimestamp 100) = true)) ∧
    (∀ p, classifyRepo scanEnv0 none none ["node_modules"] scanTree ["work"] ["a"] =
        .ok (.included p) →
      ageOk none none (fromtimestamp 100) = true ∧ p.cleanable_dirs ≠ []) :=
  age_filter_characterization scanEnv0 none none ["node_modules"] scanTree ["work"]
    ["a"] 100 "initial commit" rfl

/-! ### Commit inspector and size aggregator claims -/

/-- The repository has no commits, observed through the modelled `git log`
command: the command succeeds but prints nothing (the case the code comments
label "no commits"). -/
def gitNoCommits (po : ProcOutcome) : Prop :=
  ∃ s, po = .ok s ∧ pyStrip s.data = []

/-- Well-formedness of a `git log -1 --format=%ct|%s` outcome: when the
command succeeds, its output is either empty or of the form
`<integer>|<subject>` — which is what git prints for that format string. -/
def gitOutputWF (po : ProcOutcome) : Prop :=
  ∀ s, po = .ok s → pyStrip s.data = [] ∨
    ∃ a b, splitOncePipe (pyStrip s.data) = some (a, b) ∧ (pyParseInt a).isSome = true

/-- C8: for every well-formed `git log` outcome, `get_last_commit_info`
returns absent exactly when the repository has no commits, the command
fails, or it times out (a missing binary instead raises, and a successful
well-formed output parses); a repository yielding absent is classified
`noCommits` by the orchestrator's loop body, which adds no project and
increments the no-commits statistic by exactly one. -/
theorem commit_inspector_absent (po : ProcOutcome) (hwf : gitOutputWF po) :
    (get_last_commit_info po = .ok none ↔
      (gitNoCommits po ∨ po = .calledProcessError ∨ po = .timeoutExpired)) ∧
    (∀ (env : ScanEnv) (oc yc : Option PyDateTime) (cl : List String) (fs : Entry)
        (rp rel : List String),
      get_last_commit_info (env.gitLog (rp ++ rel)) = .ok none →
      classifyRepo env oc yc cl fs rp rel = .ok .noCommits) ∧
    (∀ (dbg : Bool) (p : List String) (st : ScanState),
      (applyOutcome dbg p st .noCommits).stale_projects = st.stale_projects ∧
      (applyOutcome dbg p st .noCommits).filtered_no_commits =
        st.filtered_no_commits + 1) := by
  refine ⟨?_,
    fun env oc yc cl fs rp rel hg =>
      classifyRepo_eq_of_no_commit env oc yc cl fs rp rel hg,
    fun dbg p st => ⟨rfl, rfl⟩⟩
  cases po with
  | ok s =>
    refine ⟨fun h => Or.inl ?_, fun h => ?_⟩
    · rcases hwf s rfl with hemp | ⟨a, b, hsp, hint⟩
      · exact ⟨s, rfl, hemp⟩
      · exfalso
        cases hps : pyStrip s.data with
        | nil => rw [hps] at hsp; simp [splitOncePipe] at hsp
        | cons c cs =>
          rw [hps] at hsp
          obtain ⟨v, hv⟩ := Option.isSome_iff_exists.mp hint
          have hval : get_last_commit_info (.ok s) = .ok (some (v, b.asString)) := by
            unfold get_last_commit_info
            dsimp only
            rw [hps]
            simp [hsp, hv]
          rw [hval] at h
          exact Option.noConfusion (Except.ok.inj h)
    · rcases h with ⟨s', hs', hemp⟩ | h | h
      · obtain rfl : s = s' := ProcOutcome.ok.inj hs'
        unfold get_last_commit_info
        dsimp only
        rw [hemp]
        rfl
      · exact ProcOutcome.noConfusion h
      · exact ProcOutcome.noConfusion h
  | calledProcessError => exact ⟨fun _ => Or.inr (Or.inl rfl), fun _ => rfl⟩
  | timeoutExpired => exact ⟨fun _ => Or.inr (Or.inr rfl), fun _ => rfl⟩
  | fileNotFound =>
    refine ⟨fun h => ?_, fun h => ?_⟩
    · exact Except.noConfusion (h : Except.error PyExc.fileNotFound = .ok none)
    · rcases h with ⟨s', hs', _⟩ | h | h
      · exact ProcOutcome.noConfusion hs'
      · exact ProcOutcome.noConfusion h
      · exact ProcOutcome.noConfusion h

/-- Witness for C8 at a concrete well-formed outcome. -/
theorem commit_inspector_absent_witness :
    (get_last_commit_info (.ok "100|initial commit") = .ok none ↔
      (gitNoCommits (.ok "100|initial commit") ∨
        ProcOutcome.ok "100|initial commit" = .calledProcessError ∨
        ProcOutcome.ok "100|initial commit" = .timeoutExpired)) ∧
    (∀ (env : ScanEnv) (oc yc : Option PyDateTime) (cl : List String) (fs : Entry)
        (rp rel : List String),
      get_last_commit_info (env.gitLog (rp ++ rel)) = .ok none →
      classifyRepo env oc yc cl fs rp rel = .ok .noCommits) ∧
    (∀ (dbg : Bool) (p : List String) (st : ScanState),
      (applyOutcome dbg p st .noCommits).stale_projects = st.stale_projects ∧
      (applyOutcome dbg p st .noCommits).filtered_no_commits =
        st.filtered_no_commits + 1) :=
  commit_inspector_absent (.ok "100|initial commit")
    (fun s hs => by
      cases hs
      right
      exact ⟨"100".data, "initial commit".data, by decide, by decide⟩)

/-- Well-formedness of a `du -sk` outcome: when the command succeeds its
first output token is du's whole-kilobyte count — a nonnegative integer —
and the `du` binary exists. -/
def duOutputWF (po : ProcOutcome) : Prop :=
  match po with
  | .ok s => ∃ tok, firstToken s.data = some tok ∧
      ∀ k, pyParseInt tok = some k → 0 ≤ k
  | .calledProcessError => True
  | .timeoutExpired => True
  | .fileNotFound => False

theorem gds_wf_spec (po : ProcOutcome) (hwf : duOutputWF po) :
    ∃ n, get_directory_size po = .ok n ∧ 0 ≤ n ∧ n % 1024 = 0 := by
  cases po with
  | ok s =>
    obtain ⟨tok, htok, hnn⟩ := hwf
    unfold get_directory_size
    dsimp only
    rw [htok]
    dsimp only
    cases hpi : pyParseInt tok with
    | none => exact ⟨0, rfl, le_refl 0, by simp⟩
    | some kb =>
      refine ⟨kb * 1024, rfl, ?_, Int.mul_emod_left kb 1024⟩
      exact mul_nonneg (hnn kb hpi) (by norm_num)
  | calledProcessError => exact ⟨0, rfl, le_refl 0, by simp⟩
  | timeoutExpired => exact ⟨0, rfl, le_refl 0, by simp⟩
  | fileNotFound => exact hwf.elim

/-- The sizes of an included project's artifacts all come from
`get_directory_size` calls on the environment. -/
theorem classifyRepo_included_sizes (env : ScanEnv) (oc yc : Option PyDateTime)
    (cl : List String) (fs : Entry) (rp rel : List String) (p : StaleProject)
    (h : classifyRepo env oc yc cl fs rp rel = .ok (.included p)) :
    ∀ d ∈ p.cleanable_dirs,
      ∃ pth, get_directory_size (env.du pth) = .ok d.size_bytes := by
  unfold classifyRepo at h
  cases hg : get_last_commit_info (env.gitLog (rp ++ rel)) with
  | error e => rw [hg] at h; cases h
  | ok o =>
    rw [hg] at h
    cases o with
    | none => exact RepoOutcome.noConfusion (Except.ok.inj h)
    | some pr =>
      obtain ⟨ts, msg⟩ := pr
      dsimp only at h
      by_cases hold : matchesOlderBound oc (fromtimestamp ts) = true
      · rw [if_pos hold] at h
        exact RepoOutcome.noConfusion (Except.ok.inj h)
      · rw [if_neg hold] at h
        by_cases hyng : matchesYoungerBound yc (fromtimestamp ts) = true
        · rw [if_pos hyng] at h
          exact RepoOutcome.noConfusion (Except.ok.inj h)
        · rw [if_neg hyng] at h
          obtain ⟨_, _, hsz⟩ := classifyRest_included_spec env cl fs rp rel
            (fromtimestamp ts) msg p h
          intro d hd
          obtain ⟨rel2, hrel2⟩ := hsz d hd
          exact ⟨(rp ++ rel) ++ rel2, hrel2⟩

/-- C10: a well-formed `du` invocation always yields a nonnegative multiple
of 1024 from `get_directory_size` (the whole-kilobyte count times 1024, or 0
when the command fails, times out, or prints an unparseable count), and
consequently every artifact size recorded in a computed scan under a
well-formed `du` is a nonnegative multiple of 1024. -/
theorem directory_size_kb_granularity (po : ProcOutcome) (hwf : duOutputWF po) :
    (∃ n, get_directory_size po = .ok n ∧ 0 ≤ n ∧ n % 1024 = 0) ∧
    (∀ (env : ScanEnv) (roots : List RootDir) (older younger : Option Nat)
        (cl : List String) (dbg : Bool) (r : ScanState),
      (∀ pth, duOutputWF (env.du pth)) →
      scanCompute env roots older younger cl dbg = .ok r →
      ∀ p ∈ r.stale_projects, ∀ d ∈ p.cleanable_dirs,
        0 ≤ d.size_bytes ∧ d.size_bytes % 1024 = 0) := by
  refine ⟨gds_wf_spec po hwf, ?_⟩
  intro env roots older younger cl dbg r hdu h p hp d hd
  rw [scanCompute, processRoots_eq_classifyAll] at h
  cases hc : classifyAll env (cutoffOf env.now older) (cutoffOf env.now younger) cl
      (locatedRepos roots) with
  | error e => rw [hc] at h; cases h
  | ok ocs =>
    rw [hc] at h
    dsimp only [Except.map] at h
    obtain rfl := Except.ok.inj h
    have hproj : (List.foldl (stepOutcome dbg) initState ocs).stale_projects =
        ocs.filterMap (fun po => includedProject po.2) := by
      rw [foldl_step_projects]
      simp [initState]
    rw [hproj] at hp
    obtain ⟨po2, hpo, hip⟩ := List.mem_filterMap.mp hp
    obtain ⟨fs, rp, rel, _, _, hcl⟩ :=
      classifyAll_mem env (cutoffOf env.now older) (cutoffOf env.now younger) cl
        (locatedRepos roots) ocs hc po2 hpo
    rw [includedProject_eq_some hip] at hcl
    obtain ⟨pth, hpth⟩ := classifyRepo_included_sizes env (cutoffOf env.now older)
      (cutoffOf env.now younger) cl fs rp rel p hcl d hd
    obtain ⟨n, hn, hnn, hmod⟩ := gds_wf_spec (env.du pth) (hdu pth)
    obtain rfl := Except.ok.inj (hn.symm.trans hpth)
    exact ⟨hnn, hmod⟩

/-- Witness for C10 at a concrete `du` outcome reporting 50 KB. -/
theorem directory_size_kb_granularity_witness :
    (∃ n, get_directory_size (.ok "50 /x") = .ok n ∧ 0 ≤ n ∧ n % 1024 = 0) ∧
    (∀ (env : ScanEnv) (roots : List RootDir) (older younger : Option Nat)
        (cl : List String) (dbg : Bool) (r : ScanState),
      (∀ pth, duOutputWF (env.du pth)) →
      scanCompute env roots older younger cl dbg = .ok r →
      ∀ p ∈ r.stale_projects, ∀ d ∈ p.cleanable_dirs,
        0 ≤ d.size_bytes ∧ d.size_bytes % 1024 = 0) :=
  directory_size_kb_granularity (.ok "50 /x")
    ⟨"50".data, by decide, fun k hk => by
      have h50 : pyParseInt ("50".data) = some 50 := by decide
      rw [h50] at hk
      obtain rfl := Option.some.inj hk
      decide⟩

end DevCleanup
